import Mathlib

/-!
Verification of `billing.py`: a tool that queries AWS Cost Explorer for
monthly cost totals across CLI profiles and renders the results as console
and file output.  Python dicts are embedded as association lists that keep
insertion order, Decimal amounts as exact rationals, and the pagination and
profile loops as structural recursions over the list of pages / profiles.
-/

namespace Billing

/-- Python `d.get(k)`: first binding of `k` in an insertion-ordered dict. -/
def dictGet {α : Type} : List (String × α) → String → Option α
  | [], _ => none
  | (k, v) :: rest, key => if k = key then some v else dictGet rest key

/-- Python `d[k] = v`: overwrite in place when present, append when absent. -/
def dictSet {α : Type} : List (String × α) → String → α → List (String × α)
  | [], key, v => [(key, v)]
  | (k, w) :: rest, key, v =>
      if k = key then (k, v) :: rest else (k, w) :: dictSet rest key v

/-- One entry of a `Groups` list in a `ResultsByTime` item: its `Keys` list
and the Decimal `Metrics.UnblendedCost.Amount` as an exact rational. -/
structure CGroup where
  keys : List String
  amount : ℚ
  deriving Repr, DecidableEq

/-- One `ResultsByTime` item: `TimePeriod.Start`, the ungrouped
`Total.UnblendedCost.Amount`, and the `Groups` list. -/
structure Item where
  start : String
  totalAmount : ℚ
  groups : List CGroup
  deriving Repr, DecidableEq

/-- One API response page of `get_cost_and_usage`. -/
structure Page where
  resultsByTime : List Item
  nextPageToken : Option String
  deriving Repr, DecidableEq

/-- Mutable state of the accumulation loop in `query_costs`: the flat
`totals` dict and the nested `totals_by_account` dict. -/
structure QueryState where
  totals : List (String × ℚ)
  totalsByAccount : List (String × List (String × ℚ))
  deriving Repr, DecidableEq

/-- `totals[month] = totals.get(month, Decimal("0")) + amount`. -/
def addAmount (totals : List (String × ℚ)) (month : String) (amount : ℚ) :
    List (String × ℚ) :=
  dictSet totals month ((dictGet totals month).getD 0 + amount)

/-- Body of `for group in item.get("Groups", [])`:
`account_totals = totals_by_account.setdefault(account_id, {})` followed by
`account_totals[month] = account_totals.get(month, Decimal("0")) + amount`. -/
def addGroupAmount (byAcct : List (String × List (String × ℚ))) (month : String)
    (g : CGroup) : List (String × List (String × ℚ)) :=
  let accountId := g.keys.headD ""
  let accountTotals := (dictGet byAcct accountId).getD []
  dictSet byAcct accountId (addAmount accountTotals month g.amount)

/-- The loop over `item.get("Groups", [])` for a single item. -/
def processGroups (byAcct : List (String × List (String × ℚ))) (month : String) :
    List CGroup → List (String × List (String × ℚ))
  | [] => byAcct
  | g :: rest => processGroups (addGroupAmount byAcct month g) month rest

/-- Body of `for item in response["ResultsByTime"]`, branching on
`group_by_account` as the source does. -/
def processItem (groupByAccount : Bool) (st : QueryState) (item : Item) :
    QueryState :=
  if groupByAccount then
    { st with totalsByAccount :=
        processGroups st.totalsByAccount item.start item.groups }
  else
    { st with totals := addAmount st.totals item.start item.totalAmount }

/-- The loop over `response["ResultsByTime"]` of one page. -/
def processItems (groupByAccount : Bool) (st : QueryState) :
    List Item → QueryState
  | [] => st
  | item :: rest => processItems groupByAccount (processItem groupByAccount st item) rest

/-- The `while True` pagination loop of `query_costs`, run against the
sequence of pages the API returns, one per call.  Besides the final state it
reports the token passed to each call and the items accumulated, in order.
After a page with no `NextPageToken` the loop breaks and later pages are
never requested. -/
def queryLoop (groupByAccount : Bool) (st : QueryState) (token : Option String) :
    List Page → QueryState × List (Option String) × List Item
  | [] => (st, [], [])
  | page :: rest =>
    let st' := processItems groupByAccount st page.resultsByTime
    match page.nextPageToken with
    | none => (st', [token], page.resultsByTime)
    | some t =>
      let (final, trace, items) := queryLoop groupByAccount st' (some t) rest
      (final, token :: trace, page.resultsByTime ++ items)

/-- `query_costs`, restricted to its aggregation over the pages the API
returns: dicts start empty and the first call passes no token. -/
def query_costs (groupByAccount : Bool) (pages : List Page) :
    QueryState × List (Option String) × List Item :=
  queryLoop groupByAccount ⟨[], []⟩ none pages

/-- A response sequence is well formed when it is nonempty, every page
before the last carries a `NextPageToken` and the last does not. -/
def wfPages : List Page → Bool
  | [] => false
  | [page] => page.nextPageToken.isNone
  | page :: rest => page.nextPageToken.isSome && wfPages rest

/-- All `ResultsByTime` items across all pages, in page order. -/
def allItems (pages : List Page) : List Item :=
  (pages.map Page.resultsByTime).flatten

/-- Lookup in the nested `totals_by_account` dict: the value recorded for an
(account id, month) pair, when both levels are present. -/
def nestedGet (byAcct : List (String × List (String × ℚ))) (a m : String) :
    Option ℚ :=
  (dictGet byAcct a).bind (fun d => dictGet d m)

/-! ### Dates (`datetime.date` restricted to what the tool uses) -/

/-- A calendar date; a valid one has `1 ≤ month ≤ 12`.  The day only matters
through `replace(day=1)`, so no per-month day bound is modelled. -/
structure PDate where
  year : ℤ
  month : ℤ
  day : ℤ
  deriving Repr, DecidableEq

/-- `date.replace(day=1)`. -/
def month_start (date : PDate) : PDate :=
  { date with day := 1 }

/-- `shift_months` of the source: Python `//` and `%` are floor division and
nonnegative remainder, i.e. `Int.fdiv` and `Int.fmod`. -/
def shift_months (reference : PDate) (offset : ℤ) : PDate :=
  let monthIndex := reference.month - 1 + offset
  ⟨reference.year + Int.fdiv monthIndex 12, Int.fmod monthIndex 12 + 1, 1⟩

/-- Number of whole months from year 0, used to compare month starts. -/
def monthIndexOf (date : PDate) : ℤ :=
  12 * date.year + (date.month - 1)

/-- Lexicographic `<` of `datetime.date`. -/
def dateLt (a b : PDate) : Prop :=
  a.year < b.year ∨ (a.year = b.year ∧
    (a.month < b.month ∨ (a.month = b.month ∧ a.day < b.day)))

instance : DecidablePred (fun p : PDate × PDate => dateLt p.1 p.2) := by
  intro p; unfold dateLt; infer_instance

instance (a b : PDate) : Decidable (dateLt a b) := by
  unfold dateLt; infer_instance

/-! ### Decimal rounding and number display -/

/-- `Decimal.quantize(Decimal("1"))` with the default context rounding
ROUND_HALF_EVEN, on the exact rational value. -/
def quantize1 (q : ℚ) : ℤ :=
  let f : ℤ := ⌊q⌋
  if q - f < 1/2 then f
  else if 1/2 < q - f then f + 1
  else if 2 ∣ f then f else f + 1

/-- Splits a little-endian digit list into blocks of three, as the `,`
format specifier groups from the right. -/
def chunk3 : List Char → List (List Char)
  | [] => []
  | [a] => [[a]]
  | [a, b] => [[a, b]]
  | a :: b :: c :: rest => [a, b, c] :: chunk3 rest

/-- Python `str.join` over a list of parts. -/
def strJoin (sep : String) : List String → String
  | [] => ""
  | [part] => part
  | part :: rest => part ++ sep ++ strJoin sep rest

/-- The display value `f"{int(amount):,}".replace(",", ".")`: decimal digits
grouped in threes from the right by `.`, with a leading `-` when negative. -/
def groupThousands (n : ℤ) : String :=
  let digits := (toString n.natAbs).data.reverse
  let grouped := (strJoin "." ((chunk3 digits).map (fun block =>
    String.mk block))).data.reverse
  (if n < 0 then "-" else "") ++ String.mk grouped

/-- `str.ljust`: pad on the right with spaces up to the width. -/
def ljust (s : String) (width : ℕ) : String :=
  s ++ String.mk (List.replicate (width - s.length) ' ')

/-- `str.rjust`: pad on the left with spaces up to the width. -/
def rjust (s : String) (width : ℕ) : String :=
  String.mk (List.replicate (width - s.length) ' ') ++ s

/-- The column widths of the rendering code: for each header position, the
maximum of the header label length and of every cell length in that column
(`max(..., default=0)` of a generator is a fold of `max` over `0`). -/
def colWidths (headers : List String) (rows : List (List String)) : List ℕ :=
  (List.range headers.length).map (fun col =>
    max (headers.getD col "").length
      (rows.foldl (fun acc row => max acc ((row.getD col "").length)) 0))

/-- `format_row`: first cell left-justified, the rest right-justified, each
to its column width. -/
def padRow (widths : List ℕ) (values : List String) : List String :=
  match widths, values with
  | w :: ws, v :: vs => ljust v w :: List.zipWith rjust vs ws
  | _, _ => []

/-- A formatted table line: padded cells joined by `" | "`. -/
def format_row (widths : List ℕ) (values : List String) : String :=
  strJoin " | " (padRow widths values)

/-- The separator line: runs of `-` of each column width joined by `"-+-"`. -/
def separatorLine (widths : List ℕ) : String :=
  strJoin "-+-" (widths.map (fun w => String.mk (List.replicate w '-')))

/-- QUOTE_MINIMAL of the `csv` module: a field is quoted (with doubled
inner quotes) exactly when it contains the delimiter, the quote char or a
line break. -/
def csvField (delim : String) (s : String) : String :=
  if s.data.any (fun c => c ∈ delim.data ∨ c = '"' ∨ c = '\r' ∨ c = '\n') then
    "\"" ++ (s.data.map (fun c => if c = '"' then "\"\"" else String.mk [c])).foldl
      (· ++ ·) "" ++ "\""
  else s

/-- One `writer.writerow` line for the given delimiter. -/
def csvRow (delim : String) (cells : List String) : String :=
  strJoin delim (cells.map (csvField delim))

/-! ### The `main` pipeline -/

def DEFAULT_PROFILE_LABEL : String := "__default__"

def DEFAULT_PROFILE_DISPLAY : String := "default"

/-- Parsed command-line arguments, after argparse. -/
structure Args where
  profiles : Option (List String)
  months : Option ℤ
  accounts : Option (List String)
  allProfiles : Bool
  header : Bool
  excludeCredits : Bool
  onlyCredits : Bool
  byAccount : Bool
  outFormat : Option String
  exclude : Option (List String)
  deriving Repr, DecidableEq

/-- The configuration values `main` reads (after `load_config` merged the
file over the defaults). -/
structure Config where
  ignoreProfiles : List String
  defaultMonths : ℤ
  exportFilesByDefault : Bool
  deriving Repr, DecidableEq

/-- Ambient state `main` observes: the AWS profile list, whether the default
session has credentials, the parsed `MONTHLY_COSTS_EXCLUDE` list, today. -/
structure Env where
  availableProfiles : List String
  hasDefaultCredentials : Bool
  envExclude : List String
  today : PDate
  deriving Repr, DecidableEq

/-- `months = max(1, int(args.months) if given else default_months)`. -/
def monthsEffective (args : Args) (config : Config) : ℤ :=
  max 1 (args.months.getD config.defaultMonths)

/-- The queried period start: `shift_months(month_start(today), -(months-1))`. -/
def startDate (args : Args) (config : Config) (env : Env) : PDate :=
  shift_months (month_start env.today) (-(monthsEffective args config - 1))

/-- The queried period end: `shift_months(month_start(today), 1)`. -/
def endDate (_args : Args) (_config : Config) (env : Env) : PDate :=
  shift_months (month_start env.today) 1

/-- `list(dict.fromkeys(xs))`: keep the first occurrence of each element. -/
def dedupFirstAux (seen : List String) : List String → List String
  | [] => []
  | x :: xs =>
      if seen.contains x then dedupFirstAux seen xs
      else x :: dedupFirstAux (x :: seen) xs

def dedupFirst (xs : List String) : List String :=
  dedupFirstAux [] xs

def insertSorted (x : String) : List String → List String
  | [] => [x]
  | y :: ys => if x ≤ y then x :: y :: ys else y :: insertSorted x ys

/-- `sorted(...)` on strings. -/
def insertionSort : List String → List String
  | [] => []
  | x :: xs => insertSorted x (insertionSort xs)

/-- `set.update`: add each key not already present. -/
def setAdd (acc : List String) (k : String) : List String :=
  if acc.contains k then acc else acc ++ [k]

def setUnion (acc : List String) : List String → List String
  | [] => acc
  | k :: ks => setUnion (setAdd acc k) ks

/-- First phase of profile resolution (lines 347-357): the explicit
`--profile` list deduplicated, or the available profiles minus the
exclusions, with the default-credentials fallback and the empty-list
exits. -/
def resolveBase (args : Args) (config : Config) (env : Env) :
    Except String (List String) :=
  let excluded := config.ignoreProfiles ++ env.envExclude ++ args.exclude.getD []
  if args.profiles.getD [] ≠ [] then .ok (dedupFirst (args.profiles.getD []))
  else
    let base := env.availableProfiles.filter (fun p => !excluded.contains p)
    let base :=
      if base = [] ∧ env.hasDefaultCredentials ∧
          ¬ excluded.contains DEFAULT_PROFILE_DISPLAY = true
      then [DEFAULT_PROFILE_LABEL] else base
    if args.allProfiles ∧ base = [] then
      .error "No se encontraron perfiles disponibles después de aplicar los excluidos."
    else if ¬ args.allProfiles ∧ base = [] then
      .error "No se encontraron perfiles configurados. Revisa tu archivo ~/.aws/config."
    else .ok base

/-- Profile resolution of `main` (lines 338-364): the first phase followed
by the final emptiness check and the dedup/sort of lines 358-364. -/
def resolveProfiles (args : Args) (config : Config) (env : Env) :
    Except String (List String) :=
  match resolveBase args config env with
  | .error e => .error e
  | .ok profiles =>
      if profiles = [] then .error "No se encontraron perfiles para consultar."
      else if args.profiles.getD [] ≠ [] then .ok (dedupFirst profiles)
      else .ok (insertionSort (dedupFirst profiles))

/-- `str.lower`, written over the character list. -/
def strToLower (s : String) : String :=
  String.mk (s.data.map Char.toLower)

/-- `formats_to_generate` (lines 301-311). -/
def formatsToGenerate (argFormat : Option String) (exportFilesByDefault : Bool) :
    List String :=
  match argFormat with
  | some f =>
      let selected := strToLower f
      if selected = "all" then ["table", "csv", "tsv"] else [selected]
  | none => if exportFilesByDefault then ["table", "csv", "tsv"] else []

/-- The loop dropping unknown formats (lines 313-316). -/
def validFormats (formats : List String) : List String :=
  formats.filter (fun f => f == "table" || f == "csv" || f == "tsv")

/-- What one `query_costs` call delivers to `main`: the union return type,
plus the account names fetched in grouped mode. -/
structure QueryOut where
  totals : List (String × ℚ)
  byAccount : List (String × List (String × ℚ))
  accountNames : List (String × String)
  deriving Repr, DecidableEq

/-- State threaded through the profile loop of `main`, together with the
observable traces: printed error lines and the profiles actually queried. -/
structure MainSt where
  results : List (String × List (String × ℚ))
  allMonths : List String
  errors : List String
  calls : List String
  deriving Repr, DecidableEq

def displayNameOf (profile : String) : String :=
  if profile = DEFAULT_PROFILE_LABEL then DEFAULT_PROFILE_DISPLAY else profile

def errorLine (profile msg : String) : String :=
  "# Error consultando perfil " ++ profile ++ ": " ++ msg

/-- The `for account_id, month_values in account_totals.items()` loop. -/
def insertAccountRows (display : String) (names : List (String × String)) :
    MainSt → List (String × List (String × ℚ)) → MainSt
  | st, [] => st
  | st, (accountId, monthValues) :: rest =>
      let label := (dictGet names accountId).getD accountId
      let rowKey := display ++ " [" ++ label ++ "]"
      insertAccountRows display names
        { st with
            results := dictSet st.results rowKey monthValues,
            allMonths := setUnion st.allMonths (monthValues.map Prod.fst) } rest

/-- The `for index, profile in enumerate(profiles, ...)` loop of `main`:
query each profile once, catch failures, merge successes. -/
def profileLoop (byAccount : Bool) (q : String → Except String QueryOut) :
    MainSt → List String → MainSt
  | st, [] => st
  | st, profile :: rest =>
      let display := displayNameOf profile
      let st := { st with calls := st.calls ++ [profile] }
      match q profile with
      | .error e =>
          profileLoop byAccount q
            { st with errors := st.errors ++ [errorLine profile e] } rest
      | .ok out =>
          if byAccount then
            if out.byAccount = [] then profileLoop byAccount q st rest
            else profileLoop byAccount q
              (insertAccountRows display out.accountNames st out.byAccount) rest
          else
            profileLoop byAccount q
              { st with
                  results := dictSet st.results display out.totals,
                  allMonths := setUnion st.allMonths (out.totals.map Prod.fst) } rest

/-! ### Rendering -/

/-- `str(int(amount))` for `totals.get(month, Decimal("0")).quantize(1)`. -/
def rawCell (totals : List (String × ℚ)) (month : String) : String :=
  toString (quantize1 ((dictGet totals month).getD 0))

/-- The console cell: same quantity with thousands separators. -/
def displayCell (totals : List (String × ℚ)) (month : String) : String :=
  groupThousands (quantize1 ((dictGet totals month).getD 0))

def rawRowFor (profile : String) (totals : List (String × ℚ))
    (months : List String) : List String :=
  profile :: months.map (rawCell totals)

def displayRowFor (profile : String) (totals : List (String × ℚ))
    (months : List String) : List String :=
  profile :: months.map (displayCell totals)

/-- `sorted(all_months)`: the month set, sorted. -/
def sortedMonthsOf (st : MainSt) : List String :=
  insertionSort (dedupFirst st.allMonths)

/-- `month[:7]` labels. -/
def monthLabels (months : List String) : List String :=
  months.map (fun m => m.take 7)

def headersOf (months : List String) : List String :=
  "profile" :: monthLabels months

def tableRowsOf (results : List (String × List (String × ℚ)))
    (months : List String) : List (List String) :=
  results.map (fun pr => displayRowFor pr.1 pr.2 months)

def rawRowsOf (results : List (String × List (String × ℚ)))
    (months : List String) : List (List String) :=
  results.map (fun pr => rawRowFor pr.1 pr.2 months)

/-- The aligned table file: header, separator, then the raw rows, all padded
to the file column widths. -/
def tableFileLines (headers : List String) (rawRows : List (List String)) :
    List String :=
  let widths := colWidths headers rawRows
  format_row widths headers :: separatorLine widths ::
    rawRows.map (format_row widths)

/-- A delimiter-separated file: header row then one row per result row. -/
def delimFileLines (delim : String) (headers : List String)
    (rawRows : List (List String)) : List String :=
  csvRow delim headers :: rawRows.map (csvRow delim)

def fileLinesFor (fmt : String) (headers : List String)
    (rawRows : List (List String)) : List String :=
  if fmt = "table" then tableFileLines headers rawRows
  else if fmt = "csv" then delimFileLines "," headers rawRows
  else delimFileLines "\t" headers rawRows

/-- Everything `main` prints or writes after the loop. -/
structure MainOut where
  sortedMonths : List String
  results : List (String × List (String × ℚ))
  consoleLines : List String
  files : List (String × List String)
  deriving Repr, DecidableEq

def buildOutput (args : Args) (config : Config) (st : MainSt) : MainOut :=
  let months := sortedMonthsOf st
  let headers := headersOf months
  let tableRows := tableRowsOf st.results months
  let rawRows := rawRowsOf st.results months
  let widthsDisplay := colWidths headers tableRows
  let formats := validFormats
    (formatsToGenerate args.outFormat config.exportFilesByDefault)
  { sortedMonths := months
    results := st.results
    consoleLines :=
      (if args.header then
        [format_row widthsDisplay headers, separatorLine widthsDisplay]
       else []) ++ tableRows.map (format_row widthsDisplay)
    files := formats.map (fun fmt => (fmt, fileLinesFor fmt headers rawRows)) }

/-- `main`, as far as its observable behaviour goes: either a `SystemExit`
message or the produced output, paired with the trace of profiles for which
a billing query was issued. -/
def mainModel (args : Args) (config : Config) (env : Env)
    (q : String → Except String QueryOut) :
    Except String MainOut × List String :=
  if args.excludeCredits ∧ args.onlyCredits then
    (.error "No puedes usar --exclude-credits y --only-credits al mismo tiempo.", [])
  else
    match resolveProfiles args config env with
    | .error e => (.error e, [])
    | .ok profiles =>
        let st := profileLoop args.byAccount q ⟨[], [], [], []⟩ profiles
        if st.results = [] then
          (.error "No se obtuvieron resultados de ningún perfil.", st.calls)
        else (.ok (buildOutput args config st), st.calls)

/-! ### A concrete run used to check the export behaviour -/

def c6args : Args :=
  ⟨some ["a"], none, none, false, true, false, false, false, some "all", none⟩

def c6config : Config := ⟨[], 6, true⟩

def c6env : Env := ⟨[], false, [], ⟨2024, 5, 17⟩⟩

def c6query : String → Except String QueryOut :=
  fun _ => .ok ⟨[("2024-05-01", 3)], [], []⟩

def c6out : MainOut :=
  buildOutput c6args c6config (profileLoop false c6query ⟨[], [], [], []⟩ ["a"])

/-! ### Theorems -/

theorem monthIndexOf_shift_months (r : PDate) (k : ℤ) :
    monthIndexOf (shift_months r k) = monthIndexOf r + k := by
  have h := Int.fmod_add_fdiv (r.month - 1 + k) 12
  simp only [shift_months, monthIndexOf]
  linarith

theorem shift_months_month_bounds (r : PDate) (k : ℤ) :
    1 ≤ (shift_months r k).month ∧ (shift_months r k).month ≤ 12 := by
  have h1 := Int.fmod_nonneg' (r.month - 1 + k) (by norm_num : (0:ℤ) < 12)
  have h2 := Int.fmod_lt_of_pos (r.month - 1 + k) (by norm_num : (0:ℤ) < 12)
  simp only [shift_months]
  constructor <;> linarith

theorem dateLt_of_monthIndex_lt {a b : PDate}
    (ha1 : 1 ≤ a.month) (ha2 : a.month ≤ 12)
    (hb1 : 1 ≤ b.month) (hb2 : b.month ≤ 12)
    (h : monthIndexOf a < monthIndexOf b) : dateLt a b := by
  simp only [monthIndexOf] at h
  simp only [dateLt]
  omega

/-- C9: for every integer months argument (and every configured default),
the queried period covers exactly `max 1 months` whole months: the start is
the first day of the month `max 1 months - 1` months before the current
month, the end is the first day of the month after the current month, and
the start is strictly before the end. -/
theorem query_period_spec (args : Args) (config : Config) (env : Env) :
    1 ≤ monthsEffective args config ∧
    (startDate args config env).day = 1 ∧
    (endDate args config env).day = 1 ∧
    monthIndexOf (startDate args config env) =
      monthIndexOf (month_start env.today) - (monthsEffective args config - 1) ∧
    monthIndexOf (endDate args config env) =
      monthIndexOf (month_start env.today) + 1 ∧
    monthIndexOf (endDate args config env) -
      monthIndexOf (startDate args config env) = monthsEffective args config ∧
    dateLt (startDate args config env) (endDate args config env) := by
  have hm : 1 ≤ monthsEffective args config := le_max_left _ _
  have hstart := monthIndexOf_shift_months (month_start env.today)
    (-(monthsEffective args config - 1))
  have hend := monthIndexOf_shift_months (month_start env.today) 1
  have hsb := shift_months_month_bounds (month_start env.today)
    (-(monthsEffective args config - 1))
  have heb := shift_months_month_bounds (month_start env.today) 1
  refine ⟨hm, rfl, rfl, ?_, ?_, ?_, ?_⟩
  · rw [startDate, hstart]; ring
  · rw [endDate, hend]
  · rw [startDate, endDate, hstart, hend]; ring
  · exact dateLt_of_monthIndex_lt hsb.1 hsb.2 heb.1 heb.2
      (by rw [startDate, endDate, hstart, hend]; omega)

theorem dictGet_dictSet {α : Type} (d : List (String × α)) (k : String) (v : α)
    (k' : String) :
    dictGet (dictSet d k v) k' = if k = k' then some v else dictGet d k' := by
  induction d with
  | nil => simp [dictSet, dictGet]
  | cons kv rest ih =>
      obtain ⟨k₀, v₀⟩ := kv
      simp only [dictSet]
      by_cases h0 : k₀ = k
      · subst h0
        simp only [if_pos rfl, dictGet]
        by_cases h : k₀ = k' <;> simp [h]
      · simp only [if_neg h0, dictGet]
        by_cases h1 : k₀ = k'
        · subst h1
          have hne : ¬ k = k₀ := fun he => h0 he.symm
          simp [hne]
        · simp [h1, ih]

theorem dictGet_addAmount (totals : List (String × ℚ)) (month : String)
    (amount : ℚ) (m : String) :
    dictGet (addAmount totals month amount) m =
      if month = m then some ((dictGet totals m).getD 0 + amount)
      else dictGet totals m := by
  by_cases h : month = m
  · subst h; simp [addAmount, dictGet_dictSet]
  · simp [addAmount, dictGet_dictSet, h]

theorem processItems_false_totalsByAccount (items : List Item) (st : QueryState) :
    (processItems false st items).totalsByAccount = st.totalsByAccount := by
  induction items generalizing st with
  | nil => rfl
  | cons item rest ih => simp [processItems, processItem, ih]

theorem processItems_true_totals (items : List Item) (st : QueryState) :
    (processItems true st items).totals = st.totals := by
  induction items generalizing st with
  | nil => rfl
  | cons item rest ih => simp [processItems, processItem, ih]

theorem dictGet_processItems_false (items : List Item) (st : QueryState)
    (m : String) :
    dictGet (processItems false st items).totals m =
      (if (items.filter (fun i => i.start == m)) = [] then dictGet st.totals m
       else some ((dictGet st.totals m).getD 0 +
         (((items.filter (fun i => i.start == m)).map Item.totalAmount).sum))) := by
  induction items generalizing st with
  | nil => simp [processItems]
  | cons item rest ih =>
      have hproc : (processItem false st item).totals =
          addAmount st.totals item.start item.totalAmount := rfl
      by_cases h : item.start = m
      · have hfilter : (item :: rest).filter (fun i => i.start == m) =
            item :: rest.filter (fun i => i.start == m) := by
          simp [List.filter_cons, h]
        rw [hfilter]
        have hstep : dictGet (processItem false st item).totals m =
            some ((dictGet st.totals m).getD 0 + item.totalAmount) := by
          rw [hproc, dictGet_addAmount, if_pos h]
        rw [processItems, ih]
        by_cases hrest : rest.filter (fun i => i.start == m) = []
        · simp [hrest, hstep]
        · simp only [hrest, ite_false, hstep, if_neg]
          simp [add_assoc]
      · have hfilter : (item :: rest).filter (fun i => i.start == m) =
            rest.filter (fun i => i.start == m) := by
          simp [List.filter_cons, h]
        rw [hfilter]
        have hstep : dictGet (processItem false st item).totals m =
            dictGet st.totals m := by
          rw [hproc, dictGet_addAmount, if_neg h]
        rw [processItems, ih, hstep]

theorem processItems_append (gb : Bool) (st : QueryState) (a b : List Item) :
    processItems gb (processItems gb st a) b = processItems gb st (a ++ b) := by
  induction a generalizing st with
  | nil => rfl
  | cons item rest ih => simp [processItems, ih]

theorem queryLoop_cons_some (gb : Bool) (st : QueryState) (tok : Option String)
    (page : Page) (rest : List Page) (t : String)
    (ht : page.nextPageToken = some t) :
    queryLoop gb st tok (page :: rest) =
      ((queryLoop gb (processItems gb st page.resultsByTime) (some t) rest).1,
       tok :: (queryLoop gb (processItems gb st page.resultsByTime) (some t) rest).2.1,
       page.resultsByTime ++
         (queryLoop gb (processItems gb st page.resultsByTime) (some t) rest).2.2) := by
  conv_lhs => rw [queryLoop]
  rw [ht]

/-- Structure of the pagination loop on a well-formed response sequence:
the final state folds every item in page order, the k-th call passes the
token of page k-1 (`none` for the first), and the accumulated items are the
concatenation of the pages. -/
theorem queryLoop_wf (pages : List Page) (h : wfPages pages = true) (gb : Bool)
    (st : QueryState) (tok : Option String) :
    queryLoop gb st tok pages =
      (processItems gb st (allItems pages),
       tok :: pages.dropLast.map Page.nextPageToken,
       allItems pages) := by
  induction pages generalizing st tok with
  | nil => simp [wfPages] at h
  | cons page rest ih =>
      cases rest with
      | nil =>
          have hnone : page.nextPageToken = none := by
            simpa [wfPages, Option.isNone_iff_eq_none] using h
          simp [queryLoop, hnone, allItems]
      | cons page2 rest2 =>
          have h' : page.nextPageToken.isSome = true ∧
              wfPages (page2 :: rest2) = true := by
            simpa [wfPages, Bool.and_eq_true] using h
          obtain ⟨t, ht⟩ := Option.isSome_iff_exists.mp h'.1
          rw [queryLoop_cons_some gb st tok page (page2 :: rest2) t ht]
          rw [ih h'.2]
          simp [ht, allItems, processItems_append]

/-- C2: on a response sequence whose last page has no `NextPageToken` and
whose earlier pages each have one, the pagination loop of `query_costs`
terminates having made exactly one call per page, the first with no token
and each later call with the token of the page before it, and it
accumulates the items of every page exactly once, in order. -/
theorem pagination_spec (gb : Bool) (pages : List Page)
    (h : wfPages pages = true) :
    (query_costs gb pages).2.1 =
      none :: pages.dropLast.map Page.nextPageToken ∧
    (query_costs gb pages).2.1.length = pages.length ∧
    (query_costs gb pages).2.2 = allItems pages := by
  have hne : pages ≠ [] := by
    intro he; rw [he] at h; simp [wfPages] at h
  have hq := queryLoop_wf pages h gb ⟨[], []⟩ none
  unfold query_costs
  rw [hq]
  refine ⟨rfl, ?_, rfl⟩
  have hpos : 0 < pages.length := List.length_pos.mpr hne
  simp [List.length_dropLast]
  omega

/-- C2 witness: a concrete two-page sequence. -/
theorem pagination_spec_witness :
    wfPages [⟨[⟨"2024-01-01", 3, []⟩], some "tk"⟩, ⟨[⟨"2024-02-01", 4, []⟩], none⟩] = true ∧
    (query_costs false
        [⟨[⟨"2024-01-01", 3, []⟩], some "tk"⟩, ⟨[⟨"2024-02-01", 4, []⟩], none⟩]).2.1 =
      none :: [⟨[⟨"2024-01-01", 3, []⟩], some "tk"⟩,
        (⟨[⟨"2024-02-01", 4, []⟩], none⟩ : Page)].dropLast.map Page.nextPageToken := by
  exact ⟨by decide, (pagination_spec false
    [⟨[⟨"2024-01-01", 3, []⟩], some "tk"⟩, ⟨[⟨"2024-02-01", 4, []⟩], none⟩]
    (by decide)).1⟩

/-- C1: without `group_by_account`, the totals dict binds each month that
occurs in some page to the sum of the `Amount` of every item carrying that
month as its `TimePeriod.Start`, across all pages, and binds no month that
occurs in no page. -/
theorem query_costs_totals_spec (pages : List Page) (m : String)
    (h : wfPages pages = true) :
    dictGet (query_costs false pages).1.totals m =
      (if ((allItems pages).filter (fun i => i.start == m)) = [] then none
       else some ((((allItems pages).filter (fun i => i.start == m)).map
         Item.totalAmount).sum)) := by
  have hq := queryLoop_wf pages h false ⟨[], []⟩ none
  unfold query_costs
  rw [hq]
  rw [show ((processItems false ⟨[], []⟩ (allItems pages),
      none :: pages.dropLast.map Page.nextPageToken, allItems pages).1) =
      processItems false ⟨[], []⟩ (allItems pages) from rfl]
  rw [dictGet_processItems_false]
  by_cases hf : (allItems pages).filter (fun i => i.start == m) = [] <;>
    simp [hf, dictGet]

/-- C1 witness: two pages both mentioning 2024-01, one mentioning 2024-02. -/
theorem query_costs_totals_spec_witness :
    wfPages [⟨[⟨"2024-01-01", 3, []⟩], some "tk"⟩,
      ⟨[⟨"2024-01-01", 4, []⟩, ⟨"2024-02-01", 5, []⟩], none⟩] = true ∧
    dictGet (query_costs false [⟨[⟨"2024-01-01", 3, []⟩], some "tk"⟩,
      ⟨[⟨"2024-01-01", 4, []⟩, ⟨"2024-02-01", 5, []⟩], none⟩]).1.totals "2024-01-01" =
      some 7 ∧
    dictGet (query_costs false [⟨[⟨"2024-01-01", 3, []⟩], some "tk"⟩,
      ⟨[⟨"2024-01-01", 4, []⟩, ⟨"2024-02-01", 5, []⟩], none⟩]).1.totals "2024-03-01" =
      none := by
  have hne1 : ("2024-02-01" : String) ≠ "2024-01-01" := by decide
  have hne2 : ("2024-01-01" : String) ≠ "2024-03-01" := by decide
  have hne3 : ("2024-02-01" : String) ≠ "2024-03-01" := by decide
  refine ⟨by decide, ?_, ?_⟩
  · rw [query_costs_totals_spec _ _ (by decide)]
    norm_num [allItems, List.filter_cons, hne1]
    exact fun hx => absurd hx (by simp)
  · rw [query_costs_totals_spec _ _ (by decide)]
    norm_num [allItems, List.filter_cons, hne2, hne3]

theorem dictGet_getD_nil_bind (b : List (String × List (String × ℚ)))
    (a m : String) :
    dictGet ((dictGet b a).getD []) m = nestedGet b a m := by
  unfold nestedGet
  cases dictGet b a <;> simp [dictGet]

theorem nestedGet_addGroupAmount (b : List (String × List (String × ℚ)))
    (month : String) (g : CGroup) (a m' : String) :
    nestedGet (addGroupAmount b month g) a m' =
      if g.keys.headD "" = a ∧ month = m' then
        some ((nestedGet b a m').getD 0 + g.amount)
      else nestedGet b a m' := by
  unfold addGroupAmount
  by_cases ha : g.keys.headD "" = a
  · rw [ha]
    conv_lhs => rw [nestedGet, dictGet_dictSet, if_pos rfl]
    rw [Option.some_bind, dictGet_addAmount, dictGet_getD_nil_bind]
    by_cases hm : month = m'
    · rw [if_pos hm, if_pos ⟨rfl, hm⟩]
    · rw [if_neg hm, if_neg (fun hc => hm hc.2)]
  · rw [if_neg (fun hc => ha hc.1)]
    conv_lhs => rw [nestedGet, dictGet_dictSet, if_neg ha]
    rfl

theorem nestedGet_processGroups (gs : List CGroup)
    (b : List (String × List (String × ℚ))) (month : String) (a m' : String) :
    nestedGet (processGroups b month gs) a m' =
      if month = m' then
        (if gs.filter (fun g => g.keys.headD "" == a) = [] then nestedGet b a m'
         else some ((nestedGet b a m').getD 0 +
           ((gs.filter (fun g => g.keys.headD "" == a)).map CGroup.amount).sum))
      else nestedGet b a m' := by
  induction gs generalizing b with
  | nil => simp [processGroups]
  | cons g gs ih =>
      rw [processGroups, ih]
      by_cases hm : month = m'
      · subst hm
        simp only [eq_self_iff_true, if_true]
        by_cases hg : g.keys.headD "" = a
        · have hfg : (g.keys.headD "" == a) = true := beq_iff_eq.mpr hg
          have hfilter : (g :: gs).filter (fun x => x.keys.headD "" == a) =
              g :: gs.filter (fun x => x.keys.headD "" == a) := by
            rw [List.filter_cons, hfg]; rfl
          have hstep := nestedGet_addGroupAmount b month g a month
          rw [if_pos ⟨hg, rfl⟩] at hstep
          rw [hfilter, hstep]
          by_cases hrest : gs.filter (fun x => x.keys.headD "" == a) = []
          · rw [if_pos hrest, if_neg (List.cons_ne_nil g _), hrest]
            simp
          · rw [if_neg hrest, if_neg (List.cons_ne_nil g _)]
            simp only [Option.getD_some, List.map_cons, List.sum_cons]
            rw [add_assoc]
        · have hfg : (g.keys.headD "" == a) = false :=
            beq_eq_false_iff_ne.mpr hg
          have hfilter : (g :: gs).filter (fun x => x.keys.headD "" == a) =
              gs.filter (fun x => x.keys.headD "" == a) := by
            rw [List.filter_cons, hfg]; rfl
          have hstep := nestedGet_addGroupAmount b month g a month
          rw [if_neg (fun hc => hg hc.1)] at hstep
          rw [hfilter, hstep]
      · have hstep := nestedGet_addGroupAmount b month g a m'
        rw [if_neg (fun hc => hm hc.2)] at hstep
        rw [if_neg hm, if_neg hm, hstep]

theorem nestedGet_processItems_true (items : List Item) (st : QueryState)
    (a m : String) :
    nestedGet (processItems true st items).totalsByAccount a m =
      (if (((items.filter (fun i => i.start == m)).map
            Item.groups).flatten).filter (fun g => g.keys.headD "" == a) = [] then
        nestedGet st.totalsByAccount a m
       else some ((nestedGet st.totalsByAccount a m).getD 0 +
         (((((items.filter (fun i => i.start == m)).map
           Item.groups).flatten).filter (fun g => g.keys.headD "" == a)).map
             CGroup.amount).sum)) := by
  induction items generalizing st with
  | nil => simp [processItems]
  | cons item rest ih =>
      have hproc : (processItem true st item).totalsByAccount =
          processGroups st.totalsByAccount item.start item.groups := rfl
      by_cases hs : item.start = m
      · have hfilter : (item :: rest).filter (fun i => i.start == m) =
            item :: rest.filter (fun i => i.start == m) := by
          simp [List.filter_cons, hs]
        rw [processItems, ih, hfilter]
        have hstep := nestedGet_processGroups item.groups st.totalsByAccount
          item.start a m
        rw [if_pos hs, ← hproc] at hstep
        simp only [List.map_cons, List.flatten_cons, List.filter_append]
        by_cases hg : item.groups.filter (fun g => g.keys.headD "" == a) = []
        · rw [hg] at hstep ⊢
          rw [if_pos rfl] at hstep
          simp only [List.nil_append]
          rw [hstep]
        · rw [hstep, if_neg hg]
          by_cases hrest : ((((rest.filter (fun i => i.start == m)).map
              Item.groups).flatten).filter (fun g => g.keys.headD "" == a)) = []
          · rw [hrest, if_pos rfl]
            simp only [List.append_nil]
            rw [if_neg hg]
          · have happ : item.groups.filter (fun g => g.keys.headD "" == a) ++
                ((((rest.filter (fun i => i.start == m)).map
                  Item.groups).flatten).filter (fun g => g.keys.headD "" == a)) ≠ [] :=
              fun hc => hg (List.append_eq_nil.mp hc).1
            rw [if_neg hrest, if_neg happ]
            simp only [Option.getD_some, List.map_append, List.sum_append]
            rw [add_assoc]
      · have hfilter : (item :: rest).filter (fun i => i.start == m) =
            rest.filter (fun i => i.start == m) := by
          simp [List.filter_cons, hs]
        rw [processItems, ih, hfilter]
        have hstep := nestedGet_processGroups item.groups st.totalsByAccount
          item.start a m
        rw [if_neg hs, ← hproc] at hstep
        rw [hstep]

/-- C3: with `group_by_account`, the nested dict binds each (account id,
month) pair that occurs in some group to the sum of the `Amount` of every
group whose first `Keys` entry is that account id, inside items carrying
that month, across all pages; a pair occurring nowhere is absent. -/
theorem query_costs_by_account_spec (pages : List Page) (a m : String)
    (h : wfPages pages = true)
    (_hkeys : ∀ i ∈ allItems pages, ∀ g ∈ i.groups, g.keys ≠ []) :
    nestedGet (query_costs true pages).1.totalsByAccount a m =
      (if ((((allItems pages).filter (fun i => i.start == m)).map
            Item.groups).flatten).filter (fun g => g.keys.headD "" == a) = [] then
        none
       else some ((((((allItems pages).filter (fun i => i.start == m)).map
         Item.groups).flatten).filter (fun g => g.keys.headD "" == a)).map
           CGroup.amount).sum) := by
  have hq := queryLoop_wf pages h true ⟨[], []⟩ none
  unfold query_costs
  rw [hq]
  rw [show ((processItems true ⟨[], []⟩ (allItems pages),
      none :: pages.dropLast.map Page.nextPageToken, allItems pages).1) =
      processItems true ⟨[], []⟩ (allItems pages) from rfl]
  rw [nestedGet_processItems_true]
  by_cases hf : ((((allItems pages).filter (fun i => i.start == m)).map
      Item.groups).flatten).filter (fun g => g.keys.headD "" == a) = [] <;>
    simp [hf, nestedGet, dictGet]

/-- C3 witness: one account across two pages, a second account on one. -/
theorem query_costs_by_account_spec_witness :
    wfPages [⟨[⟨"2024-01-01", 0, [⟨["111"], 3⟩, ⟨["222"], 5⟩]⟩], some "tk"⟩,
      ⟨[⟨"2024-01-01", 0, [⟨["111"], 4⟩]⟩], none⟩] = true ∧
    nestedGet (query_costs true
      [⟨[⟨"2024-01-01", 0, [⟨["111"], 3⟩, ⟨["222"], 5⟩]⟩], some "tk"⟩,
       ⟨[⟨"2024-01-01", 0, [⟨["111"], 4⟩]⟩], none⟩]).1.totalsByAccount
      "111" "2024-01-01" = some 7 ∧
    nestedGet (query_costs true
      [⟨[⟨"2024-01-01", 0, [⟨["111"], 3⟩, ⟨["222"], 5⟩]⟩], some "tk"⟩,
       ⟨[⟨"2024-01-01", 0, [⟨["111"], 4⟩]⟩], none⟩]).1.totalsByAccount
      "222" "2024-02-01" = none := by
  have hkeys : ∀ i ∈ allItems
      [⟨[⟨"2024-01-01", 0, [⟨["111"], 3⟩, ⟨["222"], 5⟩]⟩], some "tk"⟩,
       (⟨[⟨"2024-01-01", 0, [⟨["111"], 4⟩]⟩], none⟩ : Page)],
      ∀ g ∈ i.groups, g.keys ≠ [] := by decide
  have hne1 : ("222" : String) ≠ "111" := by decide
  have hne2 : ("2024-01-01" : String) ≠ "2024-02-01" := by decide
  refine ⟨by decide, ?_, ?_⟩
  · rw [query_costs_by_account_spec _ _ _ (by decide) hkeys]
    norm_num [allItems, List.filter_cons, hne1]
    exact fun hx => absurd hx (by simp)
  · rw [query_costs_by_account_spec _ _ _ (by decide) hkeys]
    norm_num [allItems, List.filter_cons, hne2]

theorem insertAccountRows_calls (display : String) (names : List (String × String))
    (rows : List (String × List (String × ℚ))) (st : MainSt) :
    (insertAccountRows display names st rows).calls = st.calls := by
  induction rows generalizing st with
  | nil => rfl
  | cons row rest ih =>
      obtain ⟨accountId, monthValues⟩ := row
      rw [insertAccountRows, ih]

theorem insertAccountRows_errors (display : String) (names : List (String × String))
    (rows : List (String × List (String × ℚ))) (st : MainSt) :
    (insertAccountRows display names st rows).errors = st.errors := by
  induction rows generalizing st with
  | nil => rfl
  | cons row rest ih =>
      obtain ⟨accountId, monthValues⟩ := row
      rw [insertAccountRows, ih]

/-- Every pass of the profile loop queries its profile, so the call trace is
the input profile list appended to the calls already made. -/
theorem profileLoop_calls (byAccount : Bool) (q : String → Except String QueryOut)
    (profiles : List String) (st : MainSt) :
    (profileLoop byAccount q st profiles).calls = st.calls ++ profiles := by
  induction profiles generalizing st with
  | nil => simp [profileLoop]
  | cons p rest ih =>
      rw [profileLoop]
      cases hq : q p with
      | error e => dsimp only; rw [ih]; simp
      | ok out =>
          dsimp only
          by_cases hb : byAccount = true
          · rw [if_pos hb]
            by_cases hempty : out.byAccount = []
            · rw [if_pos hempty, ih]; simp
            · rw [if_neg hempty, ih, insertAccountRows_calls]; simp
          · rw [if_neg hb, ih]; simp

theorem mem_dedupFirstAux (xs : List String) (seen : List String) (x : String) :
    x ∈ dedupFirstAux seen xs → x ∉ seen := by
  induction xs generalizing seen with
  | nil => simp [dedupFirstAux]
  | cons y ys ih =>
      rw [dedupFirstAux]
      by_cases hy : seen.contains y = true
      · rw [if_pos hy]; exact ih seen
      · rw [if_neg hy]
        intro hx hseen
        rcases List.mem_cons.mp hx with h | h
        · subst h
          exact hy (by simpa using hseen)
        · exact ih (y :: seen) h (List.mem_cons_of_mem y hseen)

theorem dedupFirstAux_nodup (xs : List String) (seen : List String) :
    (dedupFirstAux seen xs).Nodup := by
  induction xs generalizing seen with
  | nil => simp [dedupFirstAux]
  | cons y ys ih =>
      rw [dedupFirstAux]
      by_cases hy : seen.contains y = true
      · rw [if_pos hy]; exact ih seen
      · rw [if_neg hy]
        refine List.nodup_cons.mpr ⟨?_, ih (y :: seen)⟩
        intro hmem
        exact mem_dedupFirstAux ys (y :: seen) y hmem (List.mem_cons_self y seen)

theorem dedupFirst_nodup (xs : List String) : (dedupFirst xs).Nodup :=
  dedupFirstAux_nodup xs []

theorem insertSorted_perm (x : String) (l : List String) :
    (insertSorted x l).Perm (x :: l) := by
  induction l with
  | nil => simp [insertSorted]
  | cons y ys ih =>
      rw [insertSorted]
      by_cases h : x ≤ y
      · rw [if_pos h]
      · rw [if_neg h]
        exact ((ih.cons y).trans (List.Perm.swap x y ys))

theorem insertionSort_perm (l : List String) : (insertionSort l).Perm l := by
  induction l with
  | nil => simp [insertionSort]
  | cons x xs ih =>
      rw [insertionSort]
      exact (insertSorted_perm x (insertionSort xs)).trans (ih.cons x)

/-- The resolved profile list never contains a profile twice. -/
theorem resolveProfiles_nodup (args : Args) (config : Config) (env : Env)
    (profiles : List String)
    (h : resolveProfiles args config env = .ok profiles) : profiles.Nodup := by
  unfold resolveProfiles at h
  cases hbase : resolveBase args config env with
  | error e => rw [hbase] at h; simp at h
  | ok base =>
      rw [hbase] at h
      simp only at h
      by_cases hb : base = []
      · rw [if_pos hb] at h; simp at h
      · rw [if_neg hb] at h
        by_cases hp : (args.profiles.getD []) ≠ []
        · rw [if_pos hp] at h
          simp only [Except.ok.injEq] at h
          rw [← h]
          exact dedupFirst_nodup base
        · rw [if_neg hp] at h
          simp only [Except.ok.injEq] at h
          rw [← h]
          exact ((insertionSort_perm (dedupFirst base)).nodup_iff).mpr
            (dedupFirst_nodup base)

/-- C5: every profile in the resolved list is queried exactly once, in list
order: the query trace of a run equals the resolved list itself, which holds
no duplicates. -/
theorem profiles_queried_once_spec (args : Args) (config : Config) (env : Env)
    (q : String → Except String QueryOut) (profiles : List String)
    (hflags : ¬ (args.excludeCredits = true ∧ args.onlyCredits = true))
    (hres : resolveProfiles args config env = .ok profiles) :
    (mainModel args config env q).2 = profiles ∧ profiles.Nodup ∧
    ∀ p ∈ profiles, ((mainModel args config env q).2).count p = 1 := by
  have hnodup := resolveProfiles_nodup args config env profiles hres
  have htrace : (mainModel args config env q).2 = profiles := by
    rw [mainModel, if_neg hflags]
    simp only [hres]
    have hc := profileLoop_calls args.byAccount q profiles ⟨[], [], [], []⟩
    by_cases hempty : (profileLoop args.byAccount q ⟨[], [], [], []⟩ profiles).results = []
    · rw [if_pos hempty]
      simpa using hc
    · rw [if_neg hempty]
      simpa using hc
  refine ⟨htrace, hnodup, ?_⟩
  intro p hp
  rw [htrace]
  exact List.count_eq_one_of_mem hnodup hp

/-- C5 witness: two explicit profiles, one failing query. -/
theorem profiles_queried_once_spec_witness :
    (mainModel
      ⟨some ["b", "a", "b"], none, none, false, true, false, false, false, none, none⟩
      ⟨[], 6, true⟩ ⟨[], false, [], ⟨2024, 5, 17⟩⟩
      (fun p => if p = "a" then .error "boom"
        else .ok ⟨[("2024-05-01", 3)], [], []⟩)).2 = ["b", "a"] := by
  have h := profiles_queried_once_spec
    ⟨some ["b", "a", "b"], none, none, false, true, false, false, false, none, none⟩
    ⟨[], 6, true⟩ ⟨[], false, [], ⟨2024, 5, 17⟩⟩
    (fun p => if p = "a" then .error "boom"
      else .ok ⟨[("2024-05-01", 3)], [], []⟩)
    ["b", "a"] (by simp) rfl
  exact h.1

/-- C8: when both `--exclude-credits` and `--only-credits` are passed, main
exits with an error and no billing query is ever issued. -/
theorem credits_flags_conflict_spec (args : Args) (config : Config) (env : Env)
    (q : String → Except String QueryOut)
    (h1 : args.excludeCredits = true) (h2 : args.onlyCredits = true) :
    mainModel args config env q =
      (.error "No puedes usar --exclude-credits y --only-credits al mismo tiempo.",
       []) := by
  rw [mainModel, if_pos ⟨h1, h2⟩]

/-- C8 witness. -/
theorem credits_flags_conflict_spec_witness :
    mainModel ⟨none, none, none, false, true, true, true, false, none, none⟩
      ⟨[], 6, true⟩ ⟨["a"], false, [], ⟨2024, 5, 17⟩⟩
      (fun _ => .ok ⟨[], [], []⟩) =
      (.error "No puedes usar --exclude-credits y --only-credits al mismo tiempo.",
       []) :=
  credits_flags_conflict_spec _ _ _ _ rfl rfl

/-- C4: a failing profile is caught: the loop records the error line for
that profile, leaves the accumulated results unchanged and continues with
the remaining profiles; and when no profile contributed results, main exits
with an error. -/
theorem profile_error_handling_spec (byAccount : Bool)
    (q : String → Except String QueryOut) (p : String) (rest : List String)
    (st : MainSt) (e : String) (args : Args) (config : Config) (env : Env)
    (profiles : List String)
    (hq : q p = .error e)
    (hflags : ¬ (args.excludeCredits = true ∧ args.onlyCredits = true))
    (hres : resolveProfiles args config env = .ok profiles)
    (hempty : (profileLoop args.byAccount q ⟨[], [], [], []⟩ profiles).results = []) :
    profileLoop byAccount q st (p :: rest) =
      profileLoop byAccount q
        { st with calls := st.calls ++ [p],
                  errors := st.errors ++ [errorLine p e] } rest ∧
    (mainModel args config env q).1 =
      .error "No se obtuvieron resultados de ningún perfil." := by
  constructor
  · conv_lhs => rw [profileLoop]
    rw [hq]
  · rw [mainModel, if_neg hflags]
    simp only [hres]
    rw [if_pos hempty]

/-- C4 witness: a single profile whose query fails. -/
theorem profile_error_handling_spec_witness :
    profileLoop false (fun _ => .error "boom") ⟨[], [], [], []⟩ ["a"] =
      profileLoop false (fun _ => .error "boom")
        ⟨[], [], [errorLine "a" "boom"], ["a"]⟩ [] ∧
    (mainModel ⟨some ["a"], none, none, false, true, false, false, false, none, none⟩
      ⟨[], 6, true⟩ ⟨[], false, [], ⟨2024, 5, 17⟩⟩
      (fun _ => .error "boom")).1 =
      .error "No se obtuvieron resultados de ningún perfil." := by
  have h := profile_error_handling_spec false (fun _ => .error "boom") "a" []
    ⟨[], [], [], []⟩ "boom"
    ⟨some ["a"], none, none, false, true, false, false, false, none, none⟩
    ⟨[], 6, true⟩ ⟨[], false, [], ⟨2024, 5, 17⟩⟩ ["a"] rfl (by simp) rfl rfl
  exact h

theorem quantize1_round_half_even (q : ℚ) :
    |q - (quantize1 q : ℚ)| ≤ 1/2 ∧
    (|q - (quantize1 q : ℚ)| = 1/2 → 2 ∣ quantize1 q) := by
  have h1 : ((⌊q⌋ : ℤ) : ℚ) ≤ q := Int.floor_le q
  have h2 : q < (⌊q⌋ : ℤ) + 1 := Int.lt_floor_add_one q
  unfold quantize1
  by_cases hc1 : q - (⌊q⌋ : ℚ) < 1/2
  · rw [if_pos hc1]
    constructor
    · rw [abs_of_nonneg (by linarith)]; linarith
    · intro ht
      rw [abs_of_nonneg (by linarith)] at ht
      exact absurd ht (by intro he; rw [he] at hc1; exact lt_irrefl _ hc1)
  · by_cases hc2 : 1/2 < q - (⌊q⌋ : ℚ)
    · rw [if_neg hc1, if_pos hc2]
      push_cast
      constructor
      · rw [abs_of_nonpos (by linarith)]; linarith
      · intro ht
        rw [abs_of_nonpos (by linarith)] at ht
        exact absurd ht (by intro he; nlinarith)
    · have hr : q - (⌊q⌋ : ℚ) = 1/2 := le_antisymm (not_lt.mp hc2) (not_lt.mp hc1)
      rw [if_neg hc1, if_neg hc2]
      by_cases hf : 2 ∣ ⌊q⌋
      · rw [if_pos hf]
        exact ⟨by rw [abs_of_nonneg (by linarith)]; linarith, fun _ => hf⟩
      · rw [if_neg hf]
        push_cast
        refine ⟨by rw [abs_of_nonpos (by linarith)]; linarith, fun _ => ?_⟩
        omega

theorem quantize1_zero : quantize1 0 = 0 := by
  norm_num [quantize1]

/-- C10: in every output row, the cell at a month column is the exact
rational monthly total rounded to a whole number by half-even rounding (the
raw cell its plain digits, the console cell its thousands-grouped form),
and a (profile, month) pair with no recorded amount produces the cell 0. -/
theorem output_cells_spec (totals : List (String × ℚ)) (months : List String)
    (profile m : String) (i : ℕ) (hi : i < months.length)
    (hm : months.getD i "" = m) :
    (rawRowFor profile totals months).getD (i+1) "" = rawCell totals m ∧
    (displayRowFor profile totals months).getD (i+1) "" = displayCell totals m ∧
    rawCell totals m = toString (quantize1 ((dictGet totals m).getD 0)) ∧
    displayCell totals m = groupThousands (quantize1 ((dictGet totals m).getD 0)) ∧
    |((dictGet totals m).getD 0 : ℚ) -
      (quantize1 ((dictGet totals m).getD 0) : ℚ)| ≤ 1/2 ∧
    (|((dictGet totals m).getD 0 : ℚ) -
      (quantize1 ((dictGet totals m).getD 0) : ℚ)| = 1/2 →
      2 ∣ quantize1 ((dictGet totals m).getD 0)) ∧
    (dictGet totals m = none →
      rawCell totals m = "0" ∧ displayCell totals m = "0") := by
  have hmap : ∀ (f : List (String × ℚ) → String → String),
      (profile :: months.map (f totals)).getD (i+1) "" = f totals m := by
    intro f
    rw [List.getD_cons_succ, List.getD_eq_getElem?_getD, List.getElem?_map,
      List.getElem?_eq_getElem hi]
    rw [← hm, List.getD_eq_getElem?_getD, List.getElem?_eq_getElem hi]
    rfl
  refine ⟨hmap rawCell, hmap displayCell, rfl, rfl,
    (quantize1_round_half_even _).1, (quantize1_round_half_even _).2, ?_⟩
  intro hnone
  unfold rawCell displayCell
  rw [hnone]
  simp only [Option.getD_none, quantize1_zero]
  exact ⟨rfl, rfl⟩

/-- C10 witness: a present month renders its rounded amount, an absent
month renders 0. -/
theorem output_cells_spec_witness :
    (1 : ℕ) < ["2024-05-01", "2024-06-01"].length ∧
    rawCell [("2024-05-01", (3:ℚ))] "2024-05-01" = "3" ∧
    dictGet [("2024-05-01", (3:ℚ))] "2024-06-01" = none ∧
    rawCell [("2024-05-01", (3:ℚ))] "2024-06-01" = "0" ∧
    displayCell [("2024-05-01", (3:ℚ))] "2024-06-01" = "0" := by
  have h6 := output_cells_spec [("2024-05-01", (3:ℚ))]
    ["2024-05-01", "2024-06-01"] "a" "2024-06-01" 1 (by decide) rfl
  have h5 := output_cells_spec [("2024-05-01", (3:ℚ))]
    ["2024-05-01", "2024-06-01"] "a" "2024-05-01" 0 (by decide) rfl
  have hnone : dictGet [("2024-05-01", (3:ℚ))] "2024-06-01" = none := rfl
  have hsome : dictGet [("2024-05-01", (3:ℚ))] "2024-05-01" = some 3 := rfl
  have hz := h6.2.2.2.2.2.2 hnone
  refine ⟨by decide, ?_, hnone, hz.1, hz.2⟩
  rw [h5.2.2.1, hsome]
  simp only [Option.getD_some]
  rw [show quantize1 (3:ℚ) = 3 from by norm_num [quantize1]]
  rfl

theorem strJoin_length (sep : String) (parts : List String) :
    (strJoin sep parts).length =
      (parts.map String.length).sum + sep.length * (parts.length - 1) := by
  induction parts with
  | nil => simp [strJoin]
  | cons x xs ih =>
      cases xs with
      | nil => simp [strJoin]
      | cons y ys =>
          have hstep : strJoin sep (x :: y :: ys) =
              x ++ sep ++ strJoin sep (y :: ys) := rfl
          rw [hstep, String.length_append, String.length_append, ih]
          simp only [List.map_cons, List.sum_cons, List.length_cons,
            Nat.add_sub_cancel]
          ring

theorem ljust_length (s : String) (w : ℕ) : (ljust s w).length = max s.length w := by
  simp only [ljust, String.length_append, String.length_mk, List.length_replicate]
  omega

theorem rjust_length (s : String) (w : ℕ) : (rjust s w).length = max s.length w := by
  simp only [rjust, String.length_append, String.length_mk, List.length_replicate]
  omega

theorem map_length_zipWith_rjust (vs : List String) (ws : List ℕ)
    (h : List.Forall₂ (fun v w => v.length ≤ w) vs ws) :
    (List.zipWith rjust vs ws).map String.length = ws := by
  induction h with
  | nil => rfl
  | cons hvw _ ih =>
      simp only [List.zipWith_cons_cons, List.map_cons, rjust_length,
        Nat.max_eq_right hvw, ih]

theorem map_length_padRow (ws : List ℕ) (vals : List String)
    (h : List.Forall₂ (fun v w => v.length ≤ w) vals ws) :
    (padRow ws vals).map String.length = ws := by
  cases h with
  | nil => rfl
  | cons hvw hrest =>
      simp only [padRow, List.map_cons, ljust_length, Nat.max_eq_right hvw,
        map_length_zipWith_rjust _ _ hrest]

theorem format_row_length (ws : List ℕ) (vals : List String)
    (h : List.Forall₂ (fun v w => v.length ≤ w) vals ws) :
    (format_row ws vals).length = ws.sum + 3 * (ws.length - 1) := by
  have hl : (padRow ws vals).length = ws.length := by
    rw [← List.length_map (padRow ws vals) String.length,
      map_length_padRow ws vals h]
  rw [format_row, strJoin_length, map_length_padRow ws vals h, hl]
  rfl

theorem separatorLine_length (ws : List ℕ) :
    (separatorLine ws).length = ws.sum + 3 * (ws.length - 1) := by
  have h1 : ((ws.map (fun w => String.mk (List.replicate w '-'))).map
      String.length) = ws := by
    rw [List.map_map]
    simp [Function.comp_def]
  rw [separatorLine, strJoin_length, h1, List.length_map]
  rfl

theorem le_foldl_max_init {α : Type} (l : List α) (g : α → ℕ) (a : ℕ) :
    a ≤ l.foldl (fun acc y => max acc (g y)) a := by
  induction l generalizing a with
  | nil => exact le_refl a
  | cons x xs ih => exact le_trans (Nat.le_max_left a (g x)) (ih (max a (g x)))

theorem le_foldl_max {α : Type} (l : List α) (g : α → ℕ) (a : ℕ) (x : α)
    (hx : x ∈ l) : g x ≤ l.foldl (fun acc y => max acc (g y)) a := by
  induction l generalizing a with
  | nil => cases hx
  | cons y ys ih =>
      rcases List.mem_cons.mp hx with h | h
      · subst h
        exact le_trans (Nat.le_max_right a (g x))
          (le_foldl_max_init ys g (max a (g x)))
      · exact ih (max a (g y)) h

theorem foldl_max_cases {α : Type} (l : List α) (g : α → ℕ) (a : ℕ) :
    l.foldl (fun acc y => max acc (g y)) a = a ∨
      ∃ x ∈ l, l.foldl (fun acc y => max acc (g y)) a = g x := by
  induction l generalizing a with
  | nil => exact Or.inl rfl
  | cons y ys ih =>
      rcases ih (max a (g y)) with h | ⟨x, hx, h⟩
      · rcases max_choice a (g y) with hm | hm
        · exact Or.inl (by rw [List.foldl_cons, h, hm])
        · exact Or.inr ⟨y, List.mem_cons_self y ys, by rw [List.foldl_cons, h, hm]⟩
      · exact Or.inr ⟨x, List.mem_cons_of_mem y hx, by rw [List.foldl_cons, h]⟩

theorem colWidths_length (headers : List String) (rows : List (List String)) :
    (colWidths headers rows).length = headers.length := by
  simp [colWidths]

theorem colWidths_getD (headers : List String) (rows : List (List String))
    (col : ℕ) (h : col < headers.length) :
    (colWidths headers rows).getD col 0 =
      max (headers.getD col "").length
        (rows.foldl (fun acc row => max acc ((row.getD col "").length)) 0) := by
  rw [colWidths, List.getD_eq_getElem?_getD, List.getElem?_map]
  rw [List.getElem?_range h]
  rfl

theorem forall₂_of_getD (vals : List String) (ws : List ℕ)
    (hlen : vals.length = ws.length)
    (h : ∀ i, i < vals.length → (vals.getD i "").length ≤ ws.getD i 0) :
    List.Forall₂ (fun v w => v.length ≤ w) vals ws := by
  induction vals generalizing ws with
  | nil =>
      cases ws with
      | nil => exact .nil
      | cons w ws' => simp at hlen
  | cons v vs ih =>
      cases ws with
      | nil => simp at hlen
      | cons w ws' =>
          refine .cons (by simpa using h 0 (by simp)) (ih ws' (by simpa using hlen) ?_)
          intro i hi
          simpa using h (i+1) (by simpa using Nat.succ_lt_succ hi)

theorem header_le_colWidths (headers : List String) (rows : List (List String))
    (col : ℕ) (h : col < headers.length) :
    (headers.getD col "").length ≤ (colWidths headers rows).getD col 0 := by
  rw [colWidths_getD headers rows col h]
  exact Nat.le_max_left _ _

theorem cell_le_colWidths (headers : List String) (rows : List (List String))
    (r : List String) (hr : r ∈ rows) (col : ℕ) (h : col < headers.length) :
    (r.getD col "").length ≤ (colWidths headers rows).getD col 0 := by
  rw [colWidths_getD headers rows col h]
  exact le_trans (le_foldl_max rows (fun row => (row.getD col "").length) 0 r hr)
    (Nat.le_max_right _ _)

theorem forall₂_headers_colWidths (headers : List String)
    (rows : List (List String)) :
    List.Forall₂ (fun v w => v.length ≤ w) headers (colWidths headers rows) :=
  forall₂_of_getD headers (colWidths headers rows)
    (by rw [colWidths_length])
    (fun col hcol => header_le_colWidths headers rows col hcol)

theorem forall₂_row_colWidths (headers : List String) (rows : List (List String))
    (r : List String) (hr : r ∈ rows) (hlen : r.length = headers.length) :
    List.Forall₂ (fun v w => v.length ≤ w) r (colWidths headers rows) :=
  forall₂_of_getD r (colWidths headers rows)
    (by rw [colWidths_length, hlen])
    (fun col hcol => cell_le_colWidths headers rows r hr col (hlen ▸ hcol))

/-- C7: each column width is the maximum of the header label length and of
every cell length in the column (it bounds all of them and is attained by
one of them), and the header line, separator line and every body line of the
rendered table have equal length. -/
theorem table_alignment_spec (headers : List String) (rows : List (List String))
    (hrect : ∀ r ∈ rows, r.length = headers.length) :
    (∀ col, col < headers.length →
      (headers.getD col "").length ≤ (colWidths headers rows).getD col 0 ∧
      (∀ r ∈ rows,
        (r.getD col "").length ≤ (colWidths headers rows).getD col 0) ∧
      ((colWidths headers rows).getD col 0 = (headers.getD col "").length ∨
       ∃ r ∈ rows,
         (colWidths headers rows).getD col 0 = (r.getD col "").length)) ∧
    (separatorLine (colWidths headers rows)).length =
      (format_row (colWidths headers rows) headers).length ∧
    (∀ r ∈ rows, (format_row (colWidths headers rows) r).length =
      (format_row (colWidths headers rows) headers).length) := by
  have hhead := format_row_length (colWidths headers rows) headers
    (forall₂_headers_colWidths headers rows)
  refine ⟨?_, ?_, ?_⟩
  · intro col hcol
    refine ⟨header_le_colWidths headers rows col hcol,
      fun r hr => cell_le_colWidths headers rows r hr col hcol, ?_⟩
    rw [colWidths_getD headers rows col hcol]
    rcases max_choice (headers.getD col "").length
      (rows.foldl (fun acc row => max acc ((row.getD col "").length)) 0) with hm | hm
    · exact Or.inl hm
    · rcases foldl_max_cases rows (fun row => (row.getD col "").length) 0 with hf | ⟨r, hr, hf⟩
      · left
        rw [hm, hf]
        have hle := header_le_colWidths headers rows col hcol
        rw [colWidths_getD headers rows col hcol, hm, hf] at hle
        omega
      · exact Or.inr ⟨r, hr, by rw [hm, hf]⟩
  · rw [separatorLine_length, hhead]
  · intro r hr
    rw [format_row_length (colWidths headers rows) r
      (forall₂_row_colWidths headers rows r hr (hrect r hr)), hhead]

/-- C7 witness: a two-column table with one row. -/
theorem table_alignment_spec_witness :
    (∀ r ∈ [["a", "1.234"]], r.length = ["profile", "2024-05"].length) ∧
    (separatorLine (colWidths ["profile", "2024-05"] [["a", "1.234"]])).length =
      (format_row (colWidths ["profile", "2024-05"] [["a", "1.234"]])
        ["profile", "2024-05"]).length ∧
    (format_row (colWidths ["profile", "2024-05"] [["a", "1.234"]])
        ["a", "1.234"]).length =
      (format_row (colWidths ["profile", "2024-05"] [["a", "1.234"]])
        ["profile", "2024-05"]).length := by
  have hrect : ∀ r ∈ [["a", "1.234"]], r.length = ["profile", "2024-05"].length := by
    decide
  have h := table_alignment_spec ["profile", "2024-05"] [["a", "1.234"]] hrect
  exact ⟨hrect, h.2.1, h.2.2 ["a", "1.234"] (by decide)⟩

/-- C6 (amended): with format `all` (or by default when
`export_files_by_default` holds and no `--format` is given), exactly three
files are produced — table, CSV and TSV; the CSV and TSV files are a header
row plus one row per result row, built from the same raw cell matrix and
differing only in the delimiter; the table file holds a header row, then a
separator row, then one row per result row. -/
theorem export_all_formats_spec (args : Args) (config : Config) (st : MainSt)
    (hfmt : args.outFormat = some "all" ∨
      (args.outFormat = none ∧ config.exportFilesByDefault = true)) :
    (buildOutput args config st).files =
      [("table",
         format_row (colWidths (headersOf (sortedMonthsOf st))
             (rawRowsOf st.results (sortedMonthsOf st)))
           (headersOf (sortedMonthsOf st)) ::
         separatorLine (colWidths (headersOf (sortedMonthsOf st))
             (rawRowsOf st.results (sortedMonthsOf st))) ::
         (rawRowsOf st.results (sortedMonthsOf st)).map
           (format_row (colWidths (headersOf (sortedMonthsOf st))
             (rawRowsOf st.results (sortedMonthsOf st))))),
       ("csv", csvRow "," (headersOf (sortedMonthsOf st)) ::
         (rawRowsOf st.results (sortedMonthsOf st)).map (csvRow ",")),
       ("tsv", csvRow "\t" (headersOf (sortedMonthsOf st)) ::
         (rawRowsOf st.results (sortedMonthsOf st)).map (csvRow "\t"))] ∧
    (rawRowsOf st.results (sortedMonthsOf st)).length = st.results.length := by
  have hfiles : (buildOutput args config st).files =
      (validFormats (formatsToGenerate args.outFormat
        config.exportFilesByDefault)).map
        (fun fmt => (fmt, fileLinesFor fmt (headersOf (sortedMonthsOf st))
          (rawRowsOf st.results (sortedMonthsOf st)))) := rfl
  have hall : validFormats (formatsToGenerate args.outFormat
      config.exportFilesByDefault) = ["table", "csv", "tsv"] := by
    rcases hfmt with h | ⟨h1, h2⟩
    · rw [h]; rfl
    · rw [h1, formatsToGenerate, h2]; rfl
  rw [hfiles, hall]
  have hcsv : ("csv" : String) ≠ "table" := by decide
  have htsv1 : ("tsv" : String) ≠ "table" := by decide
  have htsv2 : ("tsv" : String) ≠ "csv" := by decide
  refine ⟨?_, by simp [rawRowsOf]⟩
  simp [fileLinesFor, tableFileLines, delimFileLines, hcsv, htsv1, htsv2]

/-- C6 witness: an empty result set with `--format all`. -/
theorem export_all_formats_spec_witness :
    (buildOutput ⟨none, none, none, false, true, false, false, false, some "all", none⟩
        ⟨[], 6, true⟩ ⟨[], [], [], []⟩).files =
      [("table", ["profile", "-------"]),
       ("csv", ["profile"]),
       ("tsv", ["profile"])] := by
  have h := export_all_formats_spec
    ⟨none, none, none, false, true, false, false, false, some "all", none⟩
    ⟨[], 6, true⟩ ⟨[], [], [], []⟩ (Or.inl rfl)
  exact h.1.trans (by decide)

/-- C6 counterexample to the claim as stated: in a run with one result row
and format `all`, the aligned table file holds three lines (header,
separator, one data row), not the claimed one header row plus one row per
result row. -/
theorem export_all_formats_counterexample :
    mainModel c6args c6config c6env c6query = (.ok c6out, ["a"]) ∧
    c6out.results.length = 1 ∧
    c6out.files.map (fun f => (f.1, f.2.length)) =
      [("table", 3), ("csv", 2), ("tsv", 2)] ∧
    ¬ (∀ f ∈ c6out.files, f.2.length = 1 + c6out.results.length) := by
  refine ⟨rfl, rfl, rfl, ?_⟩
  intro hall
  have hmem : (("table", 3) : String × ℕ) ∈
      c6out.files.map (fun f => (f.1, f.2.length)) := by
    rw [show c6out.files.map (fun f => (f.1, f.2.length)) =
      [("table", 3), ("csv", 2), ("tsv", 2)] from rfl]
    simp
  obtain ⟨f, hf, hfe⟩ := List.mem_map.mp hmem
  have hlen := hall f hf
  have h3 : f.2.length = 3 := congrArg Prod.snd hfe
  rw [show c6out.results.length = 1 from rfl] at hlen
  omega

end Billing
